import Mathlib

/-!
Verification of the trend-analysis pipeline in
`src/pages/trend_analysis.py` (filter → inner merge → per-entity series +
pooled OLS trendline, plus a correlation matrix).

The embedding works over exact rationals for the tabular data.  Rows of
the two source CSVs become structures; pandas boolean-mask filtering
becomes `List.filter`; `pd.merge(..., how="inner")` becomes the
left-to-right nested-loop join that pandas' inner merge realises;
`sm.OLS(y, add_constant(x)).fit()` becomes the pseudoinverse solution of
the normal equations (statsmodels' default `pinv` method), including the
minimum-norm branch taken on a rank-deficient design.  The correlation
matrix (`DataFrame.corr`) is embedded with value type `Option ℝ`, where
`none` stands for the NaN pandas produces for a zero-variance column.
-/

/-- One row of `data/life-expectancy.csv` after `page` has coerced the
`Year` column with `.astype(int)` (line 13): columns `Entity`, `Year`,
`Life expectancy`. -/
structure LifeRow where
  entity : String
  year : ℤ
  lifeExpectancy : ℚ
  deriving DecidableEq, Repr

/-- One row of `data/owid-co2-data.csv`: columns `country`, `year`, and
the numeric columns the page touches (`co2_per_capita`, `gdp`,
`cement_co2`, `trade_co2`). -/
structure CO2Row where
  country : String
  year : ℤ
  co2PerCapita : ℚ
  gdp : ℚ
  cementCO2 : ℚ
  tradeCO2 : ℚ
  deriving DecidableEq, Repr

/-- One row of the merged dataframe produced by
`pd.merge(co2_data_filtered, life_expectancy_filtered, left_on=["country","year"], right_on=["Entity","Year"], how="inner")`:
it carries every column of both sides. -/
structure JoinedRow where
  co2 : CO2Row
  life : LifeRow
  deriving DecidableEq, Repr

/-- One row of `data/life-expectancy.csv` as loaded, before line 13's
`.astype(int)` coercion: the year may be fractional. -/
structure LifeRawRow where
  entity : String
  year : ℚ
  lifeExpectancy : ℚ
  deriving DecidableEq, Repr

/-- One row of `data/owid-co2-data.csv` as loaded: the script never
coerces its `year` column, so it is kept at its raw (possibly
fractional) value. -/
structure CO2RawRow where
  country : String
  year : ℚ
  co2PerCapita : ℚ
  gdp : ℚ
  cementCO2 : ℚ
  tradeCO2 : ℚ
  deriving DecidableEq, Repr

/-- The filter applied to the life-expectancy dataframe in both `page`
(lines 16-20) and `compare_metrics` (lines 76-80):
`Entity.isin(selected_country) & (Year >= lo) & (Year <= hi)`. -/
def filterLife (df : List LifeRow) (sel : List String) (yr : ℤ × ℤ) : List LifeRow :=
  df.filter (fun r => decide (r.entity ∈ sel ∧ yr.1 ≤ r.year ∧ r.year ≤ yr.2))

/-- The filter applied to the CO2 dataframe in both `page` (lines 22-26)
and `compare_metrics` (lines 83-87):
`country.isin(selected_country) & (year >= lo) & (year <= hi)`. -/
def filterCO2 (df : List CO2Row) (sel : List String) (yr : ℤ × ℤ) : List CO2Row :=
  df.filter (fun r => decide (r.country ∈ sel ∧ yr.1 ≤ r.year ∧ r.year ≤ yr.2))

/-- The merge
`pd.merge(co2, life, left_on=["country","year"], right_on=["Entity","Year"], how="inner")`:
for each left row, in left order, emit one joined row per matching right
row, in right order. -/
def innerMerge (co2 : List CO2Row) (life : List LifeRow) : List JoinedRow :=
  co2.flatMap (fun c =>
    (life.filter (fun l => decide (c.country = l.entity ∧ c.year = l.year))).map
      (fun l => ⟨c, l⟩))

/-- The filter-and-merge computation of `page`, lines 16-28. -/
def pageMerged (co2df : List CO2Row) (lifedf : List LifeRow)
    (sel : List String) (yr : ℤ × ℤ) : List JoinedRow :=
  innerMerge (filterCO2 co2df sel yr) (filterLife lifedf sel yr)

/-- The filter-and-merge computation repeated verbatim in
`compare_metrics`, lines 76-88. -/
def compareMerged (co2df : List CO2Row) (lifedf : List LifeRow)
    (sel : List String) (yr : ℤ × ℤ) : List JoinedRow :=
  innerMerge (filterCO2 co2df sel yr) (filterLife lifedf sel yr)

/-- Mean of a column, `l.sum / l.length`; `0` on the empty list (ℚ
division by zero), which the pipeline never relies on: regression is
guarded by the empty-merge check. -/
def mean (l : List ℚ) : ℚ := l.sum / l.length

/-- The trendline data `compare_metrics` hands to the renderer (lines
110-124): the observed x values, the model's predictions at each of them
in the same row order, and the fitted coefficients. -/
structure TrendlineResult where
  xValues : List ℚ
  fitted : List ℚ
  slope : ℚ
  intercept : ℚ
  deriving DecidableEq, Repr

/-- Determinant of the 2×2 normal-equations matrix for the design
`[1, x]`: `n·Σx² - (Σx)²`.  It vanishes exactly when the design is rank
deficient, i.e. when all x values coincide. -/
def olsDet (xs : List ℚ) : ℚ :=
  (xs.length : ℚ) * (xs.map (fun a => a * a)).sum - xs.sum * xs.sum

/-- The fit `sm.OLS(y, sm.add_constant(x)).fit().params` as the pair
(intercept, coefficient of x).  `sm.add_constant` keeps its default
`has_constant='skip'`: a column that is constant AND everywhere nonzero
already counts as a constant, so no intercept column is added and the
design is the lone column x, whose unique least-squares coefficient is
`Σxy/Σx²`; the intercept slot is 0 because that model has no intercept.
When x is identically 0 the constant IS prepended, the design `[1, 0]`
is rank deficient, and statsmodels' default pinv solver returns the
minimum-norm least-squares solution `(ȳ, 0)`.  Otherwise the design
`[1, x]` has full column rank and the pinv solution is the unique
solution of the normal equations. -/
def olsParams (xs ys : List ℚ) : ℚ × ℚ :=
  if xs ≠ [] ∧ ∀ v ∈ xs, v = xs.headD 0 then
    if xs.headD 0 = 0 then
      (mean ys, 0)
    else
      (0, (List.zipWith (fun a b => a * b) xs ys).sum /
        (xs.map (fun a => a * a)).sum)
  else
    (((xs.map (fun a => a * a)).sum * ys.sum -
        xs.sum * (List.zipWith (fun a b => a * b) xs ys).sum) / olsDet xs,
     ((xs.length : ℚ) * (List.zipWith (fun a b => a * b) xs ys).sum -
        xs.sum * ys.sum) / olsDet xs)

/-- The trendline `model.predict(X)` plotted against `merged_df[x_axis_variable]`:
predictions at each row's observed x, in the pooled row order. -/
def olsTrendline (xs ys : List ℚ) : TrendlineResult :=
  let p := olsParams xs ys
  { xValues := xs
    fitted := xs.map (fun v => p.1 + p.2 * v)
    slope := p.2
    intercept := p.1 }

/-- The scatter trace built for one country in the loop at lines 102-111:
`merged_df[merged_df["country"] == country]` projected onto the chosen x
and y columns, in the merged table's row order. -/
def perEntitySeries (merged : List JoinedRow) (xcol ycol : JoinedRow → ℚ)
    (e : String) : List (ℚ × ℚ) :=
  (merged.filter (fun r => decide (r.co2.country = e))).map
    (fun r => (xcol r, ycol r))

/-- What `compare_metrics` passes to the renderer: one point series per
selected country plus the pooled OLS trendline. -/
structure CompareResult where
  series : List (String × List (ℚ × ℚ))
  trendline : TrendlineResult
  deriving DecidableEq, Repr

/-- The function
`compare_metrics(default_df, life_expectancy_df, selected_country, selected_year_range, x, y)`,
lines 74-124.  The column selectors stand for `merged_df[x_axis_variable]`
and `merged_df[y_axis_variable]`.  `none` models the early
`st.warning(...); return None` taken when the merge is empty. -/
def compare_metrics (co2df : List CO2Row) (lifedf : List LifeRow)
    (sel : List String) (yr : ℤ × ℤ) (xcol ycol : JoinedRow → ℚ) :
    Option CompareResult :=
  let merged := compareMerged co2df lifedf sel yr
  if merged.isEmpty then none
  else some
    { series := sel.map (fun e => (e, perEntitySeries merged xcol ycol e))
      trendline := olsTrendline (merged.map xcol) (merged.map ycol) }

/-- Centered sum of squares `Σ (aᵢ - ā)²` of a column. -/
def centeredSum2 (l : List ℚ) : ℚ := (l.map (fun a => (a - mean l) ^ 2)).sum

/-- Centered cross sum `Σ (aᵢ - ā)(bᵢ - b̄)` of two columns. -/
def centeredSumProd (x y : List ℚ) : ℚ :=
  (List.zipWith (fun a b => (a - mean x) * (b - mean y)) x y).sum

/-- The spec's population variance `Var(x) = Σ(xᵢ - x̄)²/n`, written from
the spec's wording to compare against the code's normal-equations
solution. -/
def specVar (l : List ℚ) : ℚ := centeredSum2 l / l.length

/-- The spec's covariance `Cov(x,y) = Σ(xᵢ - x̄)(yᵢ - ȳ)/n`, written from
the spec's wording to compare against the code's normal-equations
solution. -/
def specCov (x y : List ℚ) : ℚ := centeredSumProd x y / x.length

/-- The ordinary-least-squares objective: the sum of squared residuals of
the line `v ↦ a + b·v` on the pooled sample. -/
def ssr (xs ys : List ℚ) (a b : ℚ) : ℚ :=
  (List.zipWith (fun x y => (y - (a + b * x)) ^ 2) xs ys).sum

/-- One cell of `DataFrame.corr()` (Pearson):
`Σ(a-ā)(b-b̄) / √(Σ(a-ā)²·Σ(b-b̄)²)`.  When either column has zero
centered sum of squares pandas' division produces NaN, modelled here as
`none`. -/
noncomputable def pearson (x y : List ℚ) : Option ℝ :=
  if centeredSum2 x = 0 ∨ centeredSum2 y = 0 then none
  else some ((centeredSumProd x y : ℝ) /
    Real.sqrt ((centeredSum2 x : ℝ) * (centeredSum2 y : ℝ)))

/-- The correlation between two columns of the merged table. -/
noncomputable def corrEntry (merged : List JoinedRow)
    (a b : JoinedRow → ℚ) : Option ℝ :=
  pearson (merged.map a) (merged.map b)

/-- The fixed column subset of line 37:
`['co2_per_capita', 'gdp', 'cement_co2', 'trade_co2']`. -/
def corrCols : List (JoinedRow → ℚ) :=
  [fun r => r.co2.co2PerCapita, fun r => r.co2.gdp,
   fun r => r.co2.cementCO2, fun r => r.co2.tradeCO2]

/-- The matrix `merged_df[selected_columns].corr()` (line 38). -/
noncomputable def corrMatrix (merged : List JoinedRow)
    (cols : List (JoinedRow → ℚ)) : List (List (Option ℝ)) :=
  cols.map (fun a => cols.map (fun b => corrEntry merged a b))

/-- What `page` renders: the correlation heatmap data and the comparator
output. -/
structure PageResult where
  corr : List (List (Option ℝ))
  cmp : Option CompareResult

/-- The function `page(dataframe, selected_country, selected_year_range)`, lines 7-72,
after the two CSVs are loaded and the life table's `Year` column has been
coerced; `none` models the `st.warning(...); return None` taken when the
merge is empty (lines 31-33), which happens before the correlation matrix
(lines 37-38) is touched. -/
noncomputable def page (co2df : List CO2Row) (lifedf : List LifeRow)
    (sel : List String) (yr : ℤ × ℤ) (xcol ycol : JoinedRow → ℚ) :
    Option PageResult :=
  let merged := pageMerged co2df lifedf sel yr
  if merged.isEmpty then none
  else some
    { corr := corrMatrix merged corrCols
      cmp := compare_metrics co2df lifedf sel yr xcol ycol }

/-- Applying `.astype(int)` to a float-valued year: truncation toward zero. -/
def pyInt (q : ℚ) : ℤ := Int.tdiv q.num q.den

/-- Line 13: `life_expectancy_df['Year'] = life_expectancy_df['Year'].astype(int)`. -/
def coerceLifeYears (df : List LifeRawRow) : List LifeRow :=
  df.map (fun r => ⟨r.entity, pyInt r.year, r.lifeExpectancy⟩)

/-- The life-table filtering of `page` as applied to raw data: the `Year`
column is coerced to integers first (line 13), then the mask of lines
16-20 compares the coerced years against the integer bounds. -/
def pageFilterLifeRaw (df : List LifeRawRow) (sel : List String)
    (yr : ℤ × ℤ) : List LifeRow :=
  filterLife (coerceLifeYears df) sel yr

/-- The CO2-table filtering of `page` as applied to raw data (lines 22-26):
the script never coerces this `year` column, so the raw value is compared
directly against the bounds. -/
def pageFilterCO2Raw (df : List CO2RawRow) (sel : List String)
    (yr : ℤ × ℤ) : List CO2RawRow :=
  df.filter (fun r =>
    decide (r.country ∈ sel ∧ (yr.1 : ℚ) ≤ r.year ∧ r.year ≤ (yr.2 : ℚ)))

section FilterJoinLemmas

/-- Membership in the filtered life table is exactly the inclusion predicate. -/
lemma mem_filterLife {df : List LifeRow} {sel : List String} {yr : ℤ × ℤ}
    {r : LifeRow} :
    r ∈ filterLife df sel yr ↔
      r ∈ df ∧ r.entity ∈ sel ∧ yr.1 ≤ r.year ∧ r.year ≤ yr.2 := by
  simp [filterLife, List.mem_filter]

/-- Membership in the filtered CO2 table is exactly the inclusion predicate. -/
lemma mem_filterCO2 {df : List CO2Row} {sel : List String} {yr : ℤ × ℤ}
    {r : CO2Row} :
    r ∈ filterCO2 df sel yr ↔
      r ∈ df ∧ r.country ∈ sel ∧ yr.1 ≤ r.year ∧ r.year ≤ yr.2 := by
  simp [filterCO2, List.mem_filter]

/-- Membership in the inner merge: a joined row is present iff its two
halves are present on their sides and agree on the (entity, year) key. -/
lemma mem_innerMerge {co2 : List CO2Row} {life : List LifeRow} {j : JoinedRow} :
    j ∈ innerMerge co2 life ↔
      j.co2 ∈ co2 ∧ j.life ∈ life ∧
        j.co2.country = j.life.entity ∧ j.co2.year = j.life.year := by
  constructor
  · intro h
    rcases List.mem_flatMap.mp h with ⟨c, hc, hmap⟩
    rcases List.mem_map.mp hmap with ⟨l, hl, rfl⟩
    rcases (List.mem_filter.mp hl) with ⟨hl', hkey⟩
    have hkey' := of_decide_eq_true hkey
    exact ⟨hc, hl', hkey'.1, hkey'.2⟩
  · rintro ⟨hc, hl, hk1, hk2⟩
    refine List.mem_flatMap.mpr ⟨j.co2, hc, List.mem_map.mpr ⟨j.life, ?_, rfl⟩⟩
    exact List.mem_filter.mpr ⟨hl, decide_eq_true ⟨hk1, hk2⟩⟩

end FilterJoinLemmas

section OLSLemmas

/-- Expansion of a centered sum of squares against the raw sums. -/
lemma sum_map_sub_sq (l : List ℚ) (a : ℚ) :
    (l.map (fun u => (u - a) ^ 2)).sum =
      (l.map (fun u => u * u)).sum - 2 * a * l.sum + (l.length : ℚ) * a ^ 2 := by
  induction l with
  | nil => simp
  | cons x xs ih =>
    simp only [List.map_cons, List.sum_cons, List.length_cons, ih]
    push_cast
    ring

/-- Expansion of a centered cross sum against the raw sums. -/
lemma sum_zipWith_mul_sub (x y : List ℚ) (a b : ℚ) (h : x.length = y.length) :
    (List.zipWith (fun u v => (u - a) * (v - b)) x y).sum =
      (List.zipWith (fun u v => u * v) x y).sum - a * y.sum - b * x.sum
        + (x.length : ℚ) * (a * b) := by
  induction x generalizing y with
  | nil =>
    cases y with
    | nil => simp
    | cons v vs => simp at h
  | cons u us ih =>
    cases y with
    | nil => simp at h
    | cons v vs =>
      have h' : us.length = vs.length := by
        simpa using h
      simp only [List.zipWith_cons_cons, List.sum_cons, List.length_cons, ih vs h']
      push_cast
      ring

/-- Sum of the residuals of an affine line, expanded. -/
lemma sum_zipWith_resid (xs ys : List ℚ) (a b : ℚ) (h : xs.length = ys.length) :
    (List.zipWith (fun x y => y - (a + b * x)) xs ys).sum =
      ys.sum - (xs.length : ℚ) * a - b * xs.sum := by
  induction xs generalizing ys with
  | nil =>
    cases ys with
    | nil => simp
    | cons v vs => simp at h
  | cons u us ih =>
    cases ys with
    | nil => simp at h
    | cons v vs =>
      have h' : us.length = vs.length := by
        simpa using h
      simp only [List.zipWith_cons_cons, List.sum_cons, List.length_cons, ih vs h']
      push_cast
      ring

/-- Sum of the x-weighted residuals of an affine line, expanded. -/
lemma sum_zipWith_xresid (xs ys : List ℚ) (a b : ℚ) (h : xs.length = ys.length) :
    (List.zipWith (fun x y => x * (y - (a + b * x))) xs ys).sum =
      (List.zipWith (fun u v => u * v) xs ys).sum - a * xs.sum
        - b * (xs.map (fun u => u * u)).sum := by
  induction xs generalizing ys with
  | nil =>
    cases ys with
    | nil => simp
    | cons v vs => simp at h
  | cons u us ih =>
    cases ys with
    | nil => simp at h
    | cons v vs =>
      have h' : us.length = vs.length := by
        simpa using h
      simp only [List.zipWith_cons_cons, List.sum_cons, List.map_cons, ih vs h']
      ring

/-- Decomposition of the least-squares objective around a reference line. -/
lemma ssr_decomp (xs ys : List ℚ) (a b p q : ℚ) (h : xs.length = ys.length) :
    ssr xs ys a b = ssr xs ys p q
      + 2 * (p - a) * (List.zipWith (fun x y => y - (p + q * x)) xs ys).sum
      + 2 * (q - b) * (List.zipWith (fun x y => x * (y - (p + q * x))) xs ys).sum
      + (xs.map (fun x => ((p - a) + (q - b) * x) ^ 2)).sum := by
  unfold ssr
  induction xs generalizing ys with
  | nil =>
    cases ys with
    | nil => simp
    | cons v vs => simp at h
  | cons u us ih =>
    cases ys with
    | nil => simp at h
    | cons v vs =>
      have h' : us.length = vs.length := by
        simpa using h
      simp only [List.zipWith_cons_cons, List.sum_cons, List.map_cons, ih vs h']
      ring

/-- A column with nonzero spec-variance is nonempty. -/
lemma ne_nil_of_specVar {xs : List ℚ} (hvar : specVar xs ≠ 0) : xs ≠ [] := by
  intro h
  apply hvar
  simp [specVar, h, centeredSum2, mean]

/-- The normal-equations determinant is `n` times the centered sum of squares. -/
lemma olsDet_eq_mul_centeredSum2 (xs : List ℚ) (hne : xs ≠ []) :
    olsDet xs = (xs.length : ℚ) * centeredSum2 xs := by
  have hn : (xs.length : ℚ) ≠ 0 :=
    Nat.cast_ne_zero.mpr (Nat.pos_iff_ne_zero.mp (List.length_pos.mpr hne))
  unfold olsDet centeredSum2 mean
  rw [sum_map_sub_sq]
  field_simp
  ring

/-- Nonzero spec-variance makes the design full rank. -/
lemma olsDet_ne_zero_of_specVar {xs : List ℚ} (hvar : specVar xs ≠ 0) :
    olsDet xs ≠ 0 := by
  have hne : xs ≠ [] := ne_nil_of_specVar hvar
  have hn : (xs.length : ℚ) ≠ 0 :=
    Nat.cast_ne_zero.mpr (Nat.pos_iff_ne_zero.mp (List.length_pos.mpr hne))
  have hcs : centeredSum2 xs ≠ 0 := by
    intro h
    exact hvar (by simp [specVar, h])
  rw [olsDet_eq_mul_centeredSum2 xs hne]
  exact mul_ne_zero hn hcs

/-- `n` times the centered cross sum against the raw sums. -/
lemma centeredSumProd_mul (xs ys : List ℚ) (hne : xs ≠ [])
    (hlen : xs.length = ys.length) :
    (xs.length : ℚ) * centeredSumProd xs ys =
      (xs.length : ℚ) * (List.zipWith (fun u v => u * v) xs ys).sum
        - xs.sum * ys.sum := by
  have hn : (xs.length : ℚ) ≠ 0 :=
    Nat.cast_ne_zero.mpr (Nat.pos_iff_ne_zero.mp (List.length_pos.mpr hne))
  unfold centeredSumProd mean
  rw [sum_zipWith_mul_sub xs ys _ _ hlen, ← hlen]
  field_simp
  ring

/-- Sum of a mapped list all of whose images coincide. -/
lemma sum_map_of_const {l : List ℚ} {f : ℚ → ℚ} {k : ℚ}
    (h : ∀ v ∈ l, f v = k) :
    (l.map f).sum = (l.length : ℚ) * k := by
  induction l with
  | nil => simp
  | cons x xs ih =>
    simp only [List.map_cons, List.sum_cons, List.length_cons]
    rw [h x (by simp), ih (fun v hv => h v (by simp [hv]))]
    push_cast
    ring

/-- Sum of a constant list. -/
lemma sum_of_const {l : List ℚ} {k : ℚ} (h : ∀ v ∈ l, v = k) :
    l.sum = (l.length : ℚ) * k := by
  have := sum_map_of_const (l := l) (f := fun v => v) (k := k) h
  simpa using this

/-- A constant column has zero centered sum of squares. -/
lemma centeredSum2_of_const {xs : List ℚ} {c : ℚ} (hne : xs ≠ [])
    (h : ∀ v ∈ xs, v = c) : centeredSum2 xs = 0 := by
  have hn : (xs.length : ℚ) ≠ 0 :=
    Nat.cast_ne_zero.mpr (Nat.pos_iff_ne_zero.mp (List.length_pos.mpr hne))
  have hm : mean xs = c := by
    unfold mean
    rw [sum_of_const h]
    field_simp
  unfold centeredSum2
  rw [sum_map_of_const (k := 0) (fun v hv => by rw [h v hv, hm]; ring)]
  ring

/-- A constant column makes the design rank deficient. -/
lemma olsDet_of_const {xs : List ℚ} {c : ℚ} (h : ∀ v ∈ xs, v = c) :
    olsDet xs = 0 := by
  unfold olsDet
  rw [sum_of_const h, sum_map_of_const (k := c * c) (fun v hv => by rw [h v hv])]
  ring

/-- A full-rank design is not a constant column. -/
lemma not_const_of_olsDet {xs : List ℚ} (hdet : olsDet xs ≠ 0) :
    ¬(xs ≠ [] ∧ ∀ v ∈ xs, v = xs.headD 0) := by
  rintro ⟨-, hall⟩
  exact hdet (olsDet_of_const hall)

/-- Cross sum against a constant left column. -/
lemma sum_zipWith_of_left_const {c : ℚ} :
    ∀ (xs ys : List ℚ), xs.length = ys.length → (∀ v ∈ xs, v = c) →
      (List.zipWith (fun a b => a * b) xs ys).sum = c * ys.sum := by
  intro xs
  induction xs with
  | nil =>
    intro ys hlen h
    cases ys with
    | nil => simp
    | cons v vs => simp at hlen
  | cons u us ih =>
    intro ys hlen h
    cases ys with
    | nil => simp at hlen
    | cons v vs =>
      have h' : us.length = vs.length := by
        simpa using hlen
      rw [List.zipWith_cons_cons, List.sum_cons, List.sum_cons,
        ih vs h' (fun w hw => h w (by simp [hw])), h u (by simp)]
      ring

/-- In the full-rank case the pseudoinverse solution has the textbook
closed form: slope `Cov/Var` and intercept `ȳ - slope·x̄`. -/
lemma olsParams_closed_form (xs ys : List ℚ) (hlen : xs.length = ys.length)
    (hvar : specVar xs ≠ 0) :
    (olsParams xs ys).2 = specCov xs ys / specVar xs ∧
    (olsParams xs ys).1 = mean ys - (olsParams xs ys).2 * mean xs := by
  have hne : xs ≠ [] := ne_nil_of_specVar hvar
  have hn : (xs.length : ℚ) ≠ 0 :=
    Nat.cast_ne_zero.mpr (Nat.pos_iff_ne_zero.mp (List.length_pos.mpr hne))
  have hcs : centeredSum2 xs ≠ 0 := by
    intro h
    exact hvar (by simp [specVar, h])
  have hdet : olsDet xs ≠ 0 := olsDet_ne_zero_of_specVar hvar
  have hdet' : (xs.length : ℚ) * (xs.map (fun a => a * a)).sum
      - xs.sum * xs.sum ≠ 0 := hdet
  have hslope : (olsParams xs ys).2 = specCov xs ys / specVar xs := by
    unfold olsParams
    rw [if_neg (not_const_of_olsDet hdet)]
    have hratio : specCov xs ys / specVar xs =
        centeredSumProd xs ys / centeredSum2 xs := by
      unfold specCov specVar
      field_simp
    rw [hratio]
    have hnum := centeredSumProd_mul xs ys hne hlen
    have hden := olsDet_eq_mul_centeredSum2 xs hne
    have hrw : centeredSumProd xs ys / centeredSum2 xs =
        ((xs.length : ℚ) * centeredSumProd xs ys) /
          ((xs.length : ℚ) * centeredSum2 xs) := by
      rw [mul_div_mul_left _ _ hn]
    rw [hrw, hnum, ← hden]
  refine ⟨hslope, ?_⟩
  unfold olsParams
  rw [if_neg (not_const_of_olsDet hdet)]
  unfold olsParams at hslope
  rw [if_neg (not_const_of_olsDet hdet)] at hslope
  simp only at hslope ⊢
  unfold mean olsDet
  unfold olsDet at hdet'
  rw [← hlen]
  field_simp
  ring

/-- The closed-form solution satisfies both normal equations. -/
lemma olsParams_normal_eqs (xs ys : List ℚ) (hlen : xs.length = ys.length)
    (hdet : olsDet xs ≠ 0) :
    (List.zipWith (fun x y =>
      y - ((olsParams xs ys).1 + (olsParams xs ys).2 * x)) xs ys).sum = 0 ∧
    (List.zipWith (fun x y =>
      x * (y - ((olsParams xs ys).1 + (olsParams xs ys).2 * x))) xs ys).sum = 0 := by
  have hdet' : (xs.length : ℚ) * (xs.map (fun a => a * a)).sum
      - xs.sum * xs.sum ≠ 0 := hdet
  unfold olsParams
  rw [if_neg (not_const_of_olsDet hdet)]
  simp only
  rw [sum_zipWith_resid xs ys _ _ hlen, sum_zipWith_xresid xs ys _ _ hlen]
  unfold olsDet
  constructor
  · field_simp
    ring
  · field_simp
    ring

/-- The pseudoinverse solution minimises the sum of squared residuals:
it is the ordinary-least-squares fit. -/
lemma olsParams_optimal (xs ys : List ℚ) (hlen : xs.length = ys.length)
    (hdet : olsDet xs ≠ 0) (a b : ℚ) :
    ssr xs ys (olsParams xs ys).1 (olsParams xs ys).2 ≤ ssr xs ys a b := by
  obtain ⟨h1, h2⟩ := olsParams_normal_eqs xs ys hlen hdet
  have hd := ssr_decomp xs ys a b (olsParams xs ys).1 (olsParams xs ys).2 hlen
  rw [h1, h2] at hd
  have hQ : 0 ≤ (xs.map (fun x =>
      (((olsParams xs ys).1 - a) + ((olsParams xs ys).2 - b) * x) ^ 2)).sum := by
    apply List.sum_nonneg
    intro z hz
    rcases List.mem_map.mp hz with ⟨x, _, rfl⟩
    positivity
  linarith

/-- On a constant x column the comparator's fit follows the skip rule of
`add_constant`: for nonzero c the design is the lone column x and the
coefficient is ȳ/c with no intercept; for the all-zero column the
design is `[1, 0]` and pinv yields the minimum-norm solution (ȳ, 0). -/
lemma olsParams_of_const (xs ys : List ℚ) (c : ℚ) (hne : xs ≠ [])
    (hlen : xs.length = ys.length) (h : ∀ v ∈ xs, v = c) :
    olsParams xs ys = if c = 0 then (mean ys, 0) else (0, mean ys / c) := by
  have hn : (xs.length : ℚ) ≠ 0 :=
    Nat.cast_ne_zero.mpr (Nat.pos_iff_ne_zero.mp (List.length_pos.mpr hne))
  have hhead : xs.headD 0 = c := by
    cases xs with
    | nil => exact absurd rfl hne
    | cons a l => simpa using h a (by simp)
  have hcond : xs ≠ [] ∧ ∀ v ∈ xs, v = xs.headD 0 := by
    refine ⟨hne, ?_⟩
    rw [hhead]
    exact h
  unfold olsParams
  rw [if_pos hcond, hhead]
  by_cases hc : c = 0
  · rw [if_pos hc, if_pos hc]
  · rw [if_neg hc, if_neg hc]
    have hxy : (List.zipWith (fun a b => a * b) xs ys).sum = c * ys.sum :=
      sum_zipWith_of_left_const xs ys hlen h
    have hxx : (xs.map (fun a => a * a)).sum = (xs.length : ℚ) * (c * c) :=
      sum_map_of_const (fun v hv => by rw [h v hv])
    rw [hxy, hxx]
    unfold mean
    rw [← hlen]
    congr 1
    field_simp
    ring

/-- On a constant x column every fitted value is the mean of y: both the
intercept-skipped fit (nonzero c) and the minimum-norm fit (zero c)
predict the horizontal line through ȳ. -/
lemma olsTrendline_const_fitted (xs ys : List ℚ) (c : ℚ) (hne : xs ≠ [])
    (hlen : xs.length = ys.length) (h : ∀ v ∈ xs, v = c) :
    (olsTrendline xs ys).fitted = xs.map (fun _ => mean ys) := by
  unfold olsTrendline
  simp only
  rw [olsParams_of_const xs ys c hne hlen h]
  by_cases hc : c = 0
  · rw [if_pos hc]
    apply List.map_congr_left
    intro v hv
    simp
  · rw [if_neg hc]
    apply List.map_congr_left
    intro v hv
    rw [h v hv]
    field_simp

end OLSLemmas

section CorrelationLemmas

/-- Zipping a list with itself is mapping the diagonal. -/
lemma zipWith_self_eq_map (f : ℚ → ℚ → ℚ) (l : List ℚ) :
    List.zipWith f l l = l.map (fun a => f a a) := by
  induction l with
  | nil => rfl
  | cons x xs ih => simp [ih]

/-- The centered cross sum of a column with itself is its centered sum of
squares. -/
lemma centeredSumProd_self (l : List ℚ) : centeredSumProd l l = centeredSum2 l := by
  unfold centeredSumProd centeredSum2
  rw [zipWith_self_eq_map]
  congr 1
  apply List.map_congr_left
  intro a _
  ring

/-- The centered cross sum is symmetric in its two columns. -/
lemma centeredSumProd_comm (x y : List ℚ) :
    centeredSumProd x y = centeredSumProd y x := by
  unfold centeredSumProd
  rw [List.zipWith_comm (fun a b => (a - mean x) * (b - mean y)) x y]
  have hf : (fun b a => (a - mean x) * (b - mean y))
      = (fun a b => (a - mean y) * (b - mean x)) := by
    funext b a
    ring
  rw [hf]

/-- A centered sum of squares is nonnegative. -/
lemma centeredSum2_nonneg (l : List ℚ) : 0 ≤ centeredSum2 l := by
  apply List.sum_nonneg
  intro z hz
  rcases List.mem_map.mp hz with ⟨a, _, rfl⟩
  positivity

end CorrelationLemmas

/-- C4: the filter stage keeps a row iff its entity is selected and its
year lies in the inclusive range — for both input tables; no qualifying
row is dropped and no other row is kept. -/
theorem filter_stage_exact (lifedf : List LifeRow) (co2df : List CO2Row)
    (sel : List String) (yr : ℤ × ℤ) (rl : LifeRow) (rc : CO2Row) :
    (rl ∈ filterLife lifedf sel yr ↔
      rl ∈ lifedf ∧ rl.entity ∈ sel ∧ yr.1 ≤ rl.year ∧ rl.year ≤ yr.2) ∧
    (rc ∈ filterCO2 co2df sel yr ↔
      rc ∈ co2df ∧ rc.country ∈ sel ∧ yr.1 ≤ rc.year ∧ rc.year ≤ yr.2) :=
  ⟨mem_filterLife, mem_filterCO2⟩

/-- C5: the join stage has inner-join semantics on the composite key:
a joined row appears iff a CO2 row and a life row exist with
`country == Entity` and `year == Year`; unmatched rows are simply
absent (the merge is a total function, never an error). -/
theorem innerMerge_semantics (co2 : List CO2Row) (life : List LifeRow)
    (j : JoinedRow) :
    j ∈ innerMerge co2 life ↔
      j.co2 ∈ co2 ∧ j.life ∈ life ∧
        j.co2.country = j.life.entity ∧ j.co2.year = j.life.year :=
  mem_innerMerge

/-- C3: an empty join makes both `page` and `compare_metrics` return the
"no data" signal (`none`), and any normal result arises only from a
non-empty joined table: regression and correlation live exclusively in
the non-empty branch. -/
theorem empty_join_halts (co2df : List CO2Row) (lifedf : List LifeRow)
    (sel : List String) (yr : ℤ × ℤ) (xcol ycol : JoinedRow → ℚ) :
    (compareMerged co2df lifedf sel yr = [] →
      compare_metrics co2df lifedf sel yr xcol ycol = none) ∧
    (pageMerged co2df lifedf sel yr = [] →
      page co2df lifedf sel yr xcol ycol = none) ∧
    (compareMerged co2df lifedf sel yr ≠ [] →
      compare_metrics co2df lifedf sel yr xcol ycol = some
        { series := sel.map (fun e =>
            (e, perEntitySeries (compareMerged co2df lifedf sel yr) xcol ycol e))
          trendline := olsTrendline
            ((compareMerged co2df lifedf sel yr).map xcol)
            ((compareMerged co2df lifedf sel yr).map ycol) }) ∧
    (pageMerged co2df lifedf sel yr ≠ [] →
      page co2df lifedf sel yr xcol ycol = some
        { corr := corrMatrix (pageMerged co2df lifedf sel yr) corrCols
          cmp := compare_metrics co2df lifedf sel yr xcol ycol }) := by
  refine ⟨fun h => ?_, fun h => ?_, fun h => ?_, fun h => ?_⟩
  · simp [compare_metrics, h]
  · simp [page, h]
  · simp [compare_metrics, List.isEmpty_iff, h]
  · simp [page, List.isEmpty_iff, h]

/-- C3 witness: on empty inputs the merge is empty and both stages
signal "no data"; on a one-row matching input both produce the normal
result. -/
theorem empty_join_halts_witness :
    (compare_metrics [] [] ["A"] (2000, 2000) (fun r => r.life.lifeExpectancy)
      (fun r => r.co2.co2PerCapita) = none) ∧
    (page [] [] ["A"] (2000, 2000) (fun r => r.life.lifeExpectancy)
      (fun r => r.co2.co2PerCapita) = none) ∧
    (page [⟨"A", 2000, 1, 2, 3, 4⟩] [⟨"A", 2000, 70⟩] ["A"] (2000, 2000)
        (fun r => r.life.lifeExpectancy) (fun r => r.co2.co2PerCapita) = some
      { corr := corrMatrix (pageMerged [⟨"A", 2000, 1, 2, 3, 4⟩]
          [⟨"A", 2000, 70⟩] ["A"] (2000, 2000)) corrCols
        cmp := compare_metrics [⟨"A", 2000, 1, 2, 3, 4⟩] [⟨"A", 2000, 70⟩]
          ["A"] (2000, 2000) (fun r => r.life.lifeExpectancy)
          (fun r => r.co2.co2PerCapita) }) ∧
    (compare_metrics [⟨"A", 2000, 1, 2, 3, 4⟩] [⟨"A", 2000, 70⟩] ["A"]
        (2000, 2000) (fun r => r.life.lifeExpectancy)
        (fun r => r.co2.co2PerCapita) = some
      { series := ["A"].map (fun e =>
          (e, perEntitySeries (compareMerged [⟨"A", 2000, 1, 2, 3, 4⟩]
            [⟨"A", 2000, 70⟩] ["A"] (2000, 2000)) (fun r => r.life.lifeExpectancy)
            (fun r => r.co2.co2PerCapita) e))
        trendline := olsTrendline
          ((compareMerged [⟨"A", 2000, 1, 2, 3, 4⟩] [⟨"A", 2000, 70⟩] ["A"]
            (2000, 2000)).map (fun r => r.life.lifeExpectancy))
          ((compareMerged [⟨"A", 2000, 1, 2, 3, 4⟩] [⟨"A", 2000, 70⟩] ["A"]
            (2000, 2000)).map (fun r => r.co2.co2PerCapita)) }) :=
  ⟨(empty_join_halts [] [] ["A"] (2000, 2000) _ _).1 rfl,
   (empty_join_halts [] [] ["A"] (2000, 2000) _ _).2.1 rfl,
   (empty_join_halts [⟨"A", 2000, 1, 2, 3, 4⟩] [⟨"A", 2000, 70⟩] ["A"]
      (2000, 2000) _ _).2.2.2 (by decide),
   (empty_join_halts [⟨"A", 2000, 1, 2, 3, 4⟩] [⟨"A", 2000, 70⟩] ["A"]
      (2000, 2000) _ _).2.2.1 (by decide)⟩

/-- C7: the per-entity series is the subsequence of the merged rows with
that entity, in the table's row order, projected onto (x, y); a series
element always comes from a matching row, every matching row contributes
its projection, and an entity with no matching rows yields `[]`. -/
theorem per_entity_series_spec (merged : List JoinedRow)
    (xcol ycol : JoinedRow → ℚ) (e : String) :
    (perEntitySeries merged xcol ycol e).Sublist
      (merged.map (fun r => (xcol r, ycol r))) ∧
    (perEntitySeries merged xcol ycol e).length =
      merged.countP (fun r => decide (r.co2.country = e)) ∧
    (∀ p ∈ perEntitySeries merged xcol ycol e,
      ∃ r ∈ merged, r.co2.country = e ∧ (xcol r, ycol r) = p) ∧
    (∀ r ∈ merged, r.co2.country = e →
      (xcol r, ycol r) ∈ perEntitySeries merged xcol ycol e) ∧
    ((∀ r ∈ merged, r.co2.country ≠ e) →
      perEntitySeries merged xcol ycol e = []) := by
  refine ⟨?_, ?_, ?_, ?_, ?_⟩
  · exact (List.filter_sublist merged).map _
  · simp [perEntitySeries, List.countP_eq_length_filter]
  · intro p hp
    rcases List.mem_map.mp hp with ⟨r, hr, rfl⟩
    rcases List.mem_filter.mp hr with ⟨hr', he⟩
    exact ⟨r, hr', of_decide_eq_true he, rfl⟩
  · intro r hr he
    exact List.mem_map.mpr ⟨r, List.mem_filter.mpr ⟨hr, decide_eq_true he⟩, rfl⟩
  · intro h
    simp only [perEntitySeries, List.map_eq_nil_iff]
    exact List.filter_eq_nil_iff.mpr (fun r hr => by simpa using h r hr)

/-- C7 witness: concrete two-row table with one matching row for "A",
none for "B". -/
theorem per_entity_series_spec_witness :
    ((∀ r ∈ [(⟨⟨"A", 2000, 1, 2, 3, 4⟩, ⟨"A", 2000, 70⟩⟩ : JoinedRow)],
        r.co2.country ≠ "B") →
      perEntitySeries [⟨⟨"A", 2000, 1, 2, 3, 4⟩, ⟨"A", 2000, 70⟩⟩]
        (fun r => r.life.lifeExpectancy) (fun r => r.co2.co2PerCapita) "B"
        = []) ∧
    perEntitySeries [⟨⟨"A", 2000, 1, 2, 3, 4⟩, ⟨"A", 2000, 70⟩⟩]
      (fun r => r.life.lifeExpectancy) (fun r => r.co2.co2PerCapita) "B"
      = [] :=
  ⟨(per_entity_series_spec [⟨⟨"A", 2000, 1, 2, 3, 4⟩, ⟨"A", 2000, 70⟩⟩]
      (fun r => r.life.lifeExpectancy) (fun r => r.co2.co2PerCapita) "B").2.2.2.2,
   (per_entity_series_spec [⟨⟨"A", 2000, 1, 2, 3, 4⟩, ⟨"A", 2000, 70⟩⟩]
      (fun r => r.life.lifeExpectancy) (fun r => r.co2.co2PerCapita) "B").2.2.2.2
      (by decide)⟩

/-- C10: the filter-and-merge block of `page` (lines 16-28) and the one
repeated in `compare_metrics` (lines 76-88) compute identical joined
tables on identical inputs, so their empty-result checks always agree. -/
theorem page_compare_merge_agree (co2df : List CO2Row) (lifedf : List LifeRow)
    (sel : List String) (yr : ℤ × ℤ) :
    pageMerged co2df lifedf sel yr = compareMerged co2df lifedf sel yr ∧
    (pageMerged co2df lifedf sel yr = [] ↔
      compareMerged co2df lifedf sel yr = []) :=
  ⟨rfl, Iff.rfl⟩

/-- Full specification of the pooled trendline in the full-rank case:
closed-form coefficients, prediction shape, and least-squares optimality. -/
lemma olsTrendline_spec (xs ys : List ℚ) (hlen : xs.length = ys.length)
    (hvar : specVar xs ≠ 0) :
    (olsTrendline xs ys).slope = specCov xs ys / specVar xs ∧
    (olsTrendline xs ys).intercept =
      mean ys - (olsTrendline xs ys).slope * mean xs ∧
    (olsTrendline xs ys).xValues = xs ∧
    (olsTrendline xs ys).fitted = xs.map (fun v =>
      (olsTrendline xs ys).intercept + (olsTrendline xs ys).slope * v) ∧
    ∀ a b : ℚ,
      ssr xs ys (olsTrendline xs ys).intercept (olsTrendline xs ys).slope ≤
        ssr xs ys a b := by
  obtain ⟨hs, hi⟩ := olsParams_closed_form xs ys hlen hvar
  have hdet := olsDet_ne_zero_of_specVar hvar
  exact ⟨hs, hi, rfl, rfl, fun a b => olsParams_optimal xs ys hlen hdet a b⟩

/-- C1: the trendline is one ordinary-least-squares fit of the y column
on the x column with intercept, pooled over all joined rows: when the
pooled x column has nonzero variance the comparator's result has slope
`Cov(x,y)/Var(x)`, intercept `mean(y) - slope·mean(x)`, x values equal to
the pooled column in row order, fitted values equal to the model's
predictions at each observed x in that same order, and coefficients that
minimise the pooled sum of squared residuals. -/
theorem pooled_ols_trendline (co2df : List CO2Row) (lifedf : List LifeRow)
    (sel : List String) (yr : ℤ × ℤ) (xcol ycol : JoinedRow → ℚ)
    (hvar : specVar ((compareMerged co2df lifedf sel yr).map xcol) ≠ 0) :
    ∃ res, compare_metrics co2df lifedf sel yr xcol ycol = some res ∧
      res.trendline.slope =
        specCov ((compareMerged co2df lifedf sel yr).map xcol)
            ((compareMerged co2df lifedf sel yr).map ycol) /
          specVar ((compareMerged co2df lifedf sel yr).map xcol) ∧
      res.trendline.intercept =
        mean ((compareMerged co2df lifedf sel yr).map ycol) -
          res.trendline.slope *
            mean ((compareMerged co2df lifedf sel yr).map xcol) ∧
      res.trendline.xValues = (compareMerged co2df lifedf sel yr).map xcol ∧
      res.trendline.fitted =
        ((compareMerged co2df lifedf sel yr).map xcol).map
          (fun v => res.trendline.intercept + res.trendline.slope * v) ∧
      ∀ a b : ℚ,
        ssr ((compareMerged co2df lifedf sel yr).map xcol)
            ((compareMerged co2df lifedf sel yr).map ycol)
            res.trendline.intercept res.trendline.slope ≤
          ssr ((compareMerged co2df lifedf sel yr).map xcol)
            ((compareMerged co2df lifedf sel yr).map ycol) a b := by
  have hne : compareMerged co2df lifedf sel yr ≠ [] := by
    intro h
    exact ne_nil_of_specVar hvar (by simp [h])
  have hlen : ((compareMerged co2df lifedf sel yr).map xcol).length
      = ((compareMerged co2df lifedf sel yr).map ycol).length := by
    simp
  obtain ⟨h1, h2, h3, h4, h5⟩ := olsTrendline_spec
    ((compareMerged co2df lifedf sel yr).map xcol)
    ((compareMerged co2df lifedf sel yr).map ycol) hlen hvar
  refine ⟨⟨sel.map (fun e =>
      (e, perEntitySeries (compareMerged co2df lifedf sel yr) xcol ycol e)),
    olsTrendline ((compareMerged co2df lifedf sel yr).map xcol)
      ((compareMerged co2df lifedf sel yr).map ycol)⟩, ?_, h1, h2, h3, h4, h5⟩
  simp [compare_metrics, List.isEmpty_iff, hne]

/-- C1 witness: the synthetic sample y = 2x + 3 at x = 0, 1, 2, realised
through concrete tables, recovers slope 2 and intercept 3 exactly. -/
theorem pooled_ols_trendline_witness :
    specVar ((compareMerged
        [⟨"A", 2000, 3, 0, 0, 0⟩, ⟨"A", 2001, 5, 0, 0, 0⟩, ⟨"A", 2002, 7, 0, 0, 0⟩]
        [⟨"A", 2000, 0⟩, ⟨"A", 2001, 1⟩, ⟨"A", 2002, 2⟩] ["A"] (2000, 2002)).map
        (fun r => r.life.lifeExpectancy)) ≠ 0 ∧
    ∃ res, compare_metrics
        [⟨"A", 2000, 3, 0, 0, 0⟩, ⟨"A", 2001, 5, 0, 0, 0⟩, ⟨"A", 2002, 7, 0, 0, 0⟩]
        [⟨"A", 2000, 0⟩, ⟨"A", 2001, 1⟩, ⟨"A", 2002, 2⟩] ["A"] (2000, 2002)
        (fun r => r.life.lifeExpectancy) (fun r => r.co2.co2PerCapita)
        = some res ∧
      res.trendline.slope = 2 ∧ res.trendline.intercept = 3 := by
  have hm : compareMerged
      [⟨"A", 2000, 3, 0, 0, 0⟩, ⟨"A", 2001, 5, 0, 0, 0⟩, ⟨"A", 2002, 7, 0, 0, 0⟩]
      [⟨"A", 2000, 0⟩, ⟨"A", 2001, 1⟩, ⟨"A", 2002, 2⟩] ["A"] (2000, 2002)
      = [⟨⟨"A", 2000, 3, 0, 0, 0⟩, ⟨"A", 2000, 0⟩⟩,
         ⟨⟨"A", 2001, 5, 0, 0, 0⟩, ⟨"A", 2001, 1⟩⟩,
         ⟨⟨"A", 2002, 7, 0, 0, 0⟩, ⟨"A", 2002, 2⟩⟩] := rfl
  have hxs : (compareMerged
      [⟨"A", 2000, 3, 0, 0, 0⟩, ⟨"A", 2001, 5, 0, 0, 0⟩, ⟨"A", 2002, 7, 0, 0, 0⟩]
      [⟨"A", 2000, 0⟩, ⟨"A", 2001, 1⟩, ⟨"A", 2002, 2⟩] ["A"] (2000, 2002)).map
      (fun r => r.life.lifeExpectancy) = [0, 1, 2] := by
    rw [hm]
    rfl
  have hys : (compareMerged
      [⟨"A", 2000, 3, 0, 0, 0⟩, ⟨"A", 2001, 5, 0, 0, 0⟩, ⟨"A", 2002, 7, 0, 0, 0⟩]
      [⟨"A", 2000, 0⟩, ⟨"A", 2001, 1⟩, ⟨"A", 2002, 2⟩] ["A"] (2000, 2002)).map
      (fun r => r.co2.co2PerCapita) = [3, 5, 7] := by
    rw [hm]
    rfl
  have hv : specVar ((compareMerged
      [⟨"A", 2000, 3, 0, 0, 0⟩, ⟨"A", 2001, 5, 0, 0, 0⟩, ⟨"A", 2002, 7, 0, 0, 0⟩]
      [⟨"A", 2000, 0⟩, ⟨"A", 2001, 1⟩, ⟨"A", 2002, 2⟩] ["A"] (2000, 2002)).map
      (fun r => r.life.lifeExpectancy)) ≠ 0 := by
    rw [hxs]
    norm_num [specVar, centeredSum2, mean]
  refine ⟨hv, ?_⟩
  obtain ⟨res, hres, hs, hi, -, -, -⟩ := pooled_ols_trendline
    [⟨"A", 2000, 3, 0, 0, 0⟩, ⟨"A", 2001, 5, 0, 0, 0⟩, ⟨"A", 2002, 7, 0, 0, 0⟩]
    [⟨"A", 2000, 0⟩, ⟨"A", 2001, 1⟩, ⟨"A", 2002, 2⟩] ["A"] (2000, 2002)
    (fun r => r.life.lifeExpectancy) (fun r => r.co2.co2PerCapita) hv
  refine ⟨res, hres, ?_, ?_⟩
  · rw [hs, hxs, hys]
    norm_num [specCov, specVar, centeredSumProd, centeredSum2, mean,
      List.zipWith_cons_cons]
  · rw [hi, hs, hxs, hys]
    norm_num [specCov, specVar, centeredSumProd, centeredSum2, mean,
      List.zipWith_cons_cons]

/-- C2 counterexample: on a joined table whose x column is constantly 5
(zero variance) the comparator reports no fitting failure at all.
Because `sm.add_constant` (default `has_constant='skip'`) treats the
nonzero constant column as an existing constant, no intercept is added:
the fit is the single-column regression with coefficient
Σxy/Σx² = ȳ/c = 1, and the result is an ordinary `some` value with
finite fitted values [5, 5] — no `DegenerateRegressionError` distinct
from a normal result exists. -/
theorem degenerate_regression_cex :
    (∀ r ∈ compareMerged [⟨"A", 2000, 3, 0, 0, 0⟩, ⟨"A", 2001, 7, 0, 0, 0⟩]
        [⟨"A", 2000, 5⟩, ⟨"A", 2001, 5⟩] ["A"] (2000, 2001),
      r.life.lifeExpectancy = 5) ∧
    specVar ((compareMerged [⟨"A", 2000, 3, 0, 0, 0⟩, ⟨"A", 2001, 7, 0, 0, 0⟩]
        [⟨"A", 2000, 5⟩, ⟨"A", 2001, 5⟩] ["A"] (2000, 2001)).map
        (fun r => r.life.lifeExpectancy)) = 0 ∧
    ∃ res, compare_metrics [⟨"A", 2000, 3, 0, 0, 0⟩, ⟨"A", 2001, 7, 0, 0, 0⟩]
        [⟨"A", 2000, 5⟩, ⟨"A", 2001, 5⟩] ["A"] (2000, 2001)
        (fun r => r.life.lifeExpectancy) (fun r => r.co2.co2PerCapita)
        = some res ∧
      res.trendline.fitted = [5, 5] ∧
      res.trendline.slope = 1 ∧
      res.trendline.intercept = 0 := by
  have hm : compareMerged [⟨"A", 2000, 3, 0, 0, 0⟩, ⟨"A", 2001, 7, 0, 0, 0⟩]
      [⟨"A", 2000, 5⟩, ⟨"A", 2001, 5⟩] ["A"] (2000, 2001)
      = [⟨⟨"A", 2000, 3, 0, 0, 0⟩, ⟨"A", 2000, 5⟩⟩,
         ⟨⟨"A", 2001, 7, 0, 0, 0⟩, ⟨"A", 2001, 5⟩⟩] := rfl
  have hxs : (compareMerged [⟨"A", 2000, 3, 0, 0, 0⟩, ⟨"A", 2001, 7, 0, 0, 0⟩]
      [⟨"A", 2000, 5⟩, ⟨"A", 2001, 5⟩] ["A"] (2000, 2001)).map
      (fun r => r.life.lifeExpectancy) = [5, 5] := by
    rw [hm]
    rfl
  have hys : (compareMerged [⟨"A", 2000, 3, 0, 0, 0⟩, ⟨"A", 2001, 7, 0, 0, 0⟩]
      [⟨"A", 2000, 5⟩, ⟨"A", 2001, 5⟩] ["A"] (2000, 2001)).map
      (fun r => r.co2.co2PerCapita) = [3, 7] := by
    rw [hm]
    rfl
  have hne : compareMerged [⟨"A", 2000, 3, 0, 0, 0⟩, ⟨"A", 2001, 7, 0, 0, 0⟩]
      [⟨"A", 2000, 5⟩, ⟨"A", 2001, 5⟩] ["A"] (2000, 2001) ≠ [] := by
    rw [hm]
    simp
  have hp : olsParams [(5 : ℚ), 5] [3, 7] = (0, 1) := by
    rw [olsParams_of_const [(5 : ℚ), 5] [3, 7] 5 (by decide) rfl (by decide)]
    norm_num [mean]
  refine ⟨?_, ?_, ?_⟩
  · rw [hm]
    decide
  · rw [hxs]
    norm_num [specVar, centeredSum2, mean]
  · refine ⟨⟨["A"].map (fun e =>
      (e, perEntitySeries (compareMerged
        [⟨"A", 2000, 3, 0, 0, 0⟩, ⟨"A", 2001, 7, 0, 0, 0⟩]
        [⟨"A", 2000, 5⟩, ⟨"A", 2001, 5⟩] ["A"] (2000, 2001))
        (fun r => r.life.lifeExpectancy) (fun r => r.co2.co2PerCapita) e)),
      olsTrendline ((compareMerged
        [⟨"A", 2000, 3, 0, 0, 0⟩, ⟨"A", 2001, 7, 0, 0, 0⟩]
        [⟨"A", 2000, 5⟩, ⟨"A", 2001, 5⟩] ["A"] (2000, 2001)).map
        (fun r => r.life.lifeExpectancy))
        ((compareMerged
        [⟨"A", 2000, 3, 0, 0, 0⟩, ⟨"A", 2001, 7, 0, 0, 0⟩]
        [⟨"A", 2000, 5⟩, ⟨"A", 2001, 5⟩] ["A"] (2000, 2001)).map
        (fun r => r.co2.co2PerCapita))⟩, ?_, ?_, ?_, ?_⟩
    · simp [compare_metrics, List.isEmpty_iff, hne]
    · show (olsTrendline _ _).fitted = [5, 5]
      rw [hxs, hys]
      simp [olsTrendline, hp]
    · show (olsTrendline _ _).slope = 1
      rw [hxs, hys]
      simp [olsTrendline, hp]
    · show (olsTrendline _ _).intercept = 0
      rw [hxs, hys]
      simp [olsTrendline, hp]

/-- C2 amended: the comparator performs no zero-variance detection; on
any non-empty joined table whose x column is constant the x variance is
zero, yet the comparator still returns a normal `some` result with every
fitted value finite and equal to mean(y).  For a nonzero constant c,
`sm.add_constant` skips the intercept and the fit is the single-column
regression with coefficient mean(y)/c; for the all-zero column the
intercept is added and the pinv solver returns the minimum-norm solution
(mean(y), 0).  No distinct fitting failure is ever reported. -/
theorem zero_variance_returns_normal_result (co2df : List CO2Row)
    (lifedf : List LifeRow) (sel : List String) (yr : ℤ × ℤ)
    (xcol ycol : JoinedRow → ℚ) (c : ℚ)
    (hne : compareMerged co2df lifedf sel yr ≠ [])
    (hconst : ∀ r ∈ compareMerged co2df lifedf sel yr, xcol r = c) :
    specVar ((compareMerged co2df lifedf sel yr).map xcol) = 0 ∧
    ∃ res, compare_metrics co2df lifedf sel yr xcol ycol = some res ∧
      res.trendline.fitted = (compareMerged co2df lifedf sel yr).map
        (fun _ => mean ((compareMerged co2df lifedf sel yr).map ycol)) ∧
      (c ≠ 0 → res.trendline.intercept = 0 ∧
        res.trendline.slope =
          mean ((compareMerged co2df lifedf sel yr).map ycol) / c) ∧
      (c = 0 → res.trendline.intercept =
          mean ((compareMerged co2df lifedf sel yr).map ycol) ∧
        res.trendline.slope = 0) := by
  have hxconst : ∀ v ∈ (compareMerged co2df lifedf sel yr).map xcol, v = c := by
    intro v hv
    rcases List.mem_map.mp hv with ⟨r, hr, rfl⟩
    exact hconst r hr
  have hxne : (compareMerged co2df lifedf sel yr).map xcol ≠ [] := by
    simpa using hne
  have hlen : ((compareMerged co2df lifedf sel yr).map xcol).length
      = ((compareMerged co2df lifedf sel yr).map ycol).length := by
    simp
  have hp := olsParams_of_const ((compareMerged co2df lifedf sel yr).map xcol)
    ((compareMerged co2df lifedf sel yr).map ycol) c hxne hlen hxconst
  constructor
  · rw [specVar, centeredSum2_of_const hxne hxconst, zero_div]
  · refine ⟨⟨sel.map (fun e =>
      (e, perEntitySeries (compareMerged co2df lifedf sel yr) xcol ycol e)),
      olsTrendline ((compareMerged co2df lifedf sel yr).map xcol)
        ((compareMerged co2df lifedf sel yr).map ycol)⟩, ?_, ?_, ?_, ?_⟩
    · simp [compare_metrics, List.isEmpty_iff, hne]
    · show (olsTrendline ((compareMerged co2df lifedf sel yr).map xcol)
        ((compareMerged co2df lifedf sel yr).map ycol)).fitted = _
      rw [olsTrendline_const_fitted _ _ c hxne hlen hxconst, List.map_map]
      rfl
    · intro hc
      constructor
      · show (olsParams ((compareMerged co2df lifedf sel yr).map xcol)
          ((compareMerged co2df lifedf sel yr).map ycol)).1 = 0
        rw [hp, if_neg hc]
      · show (olsParams ((compareMerged co2df lifedf sel yr).map xcol)
          ((compareMerged co2df lifedf sel yr).map ycol)).2 = _
        rw [hp, if_neg hc]
    · intro hc
      constructor
      · show (olsParams ((compareMerged co2df lifedf sel yr).map xcol)
          ((compareMerged co2df lifedf sel yr).map ycol)).1 = _
        rw [hp, if_pos hc]
      · show (olsParams ((compareMerged co2df lifedf sel yr).map xcol)
          ((compareMerged co2df lifedf sel yr).map ycol)).2 = 0
        rw [hp, if_pos hc]

/-- C2 witness for the amended statement: the concrete constant-x table
with x = 5 discharges both hypotheses and the nonzero-constant case:
no intercept, coefficient mean(y)/5, fitted values all mean(y). -/
theorem zero_variance_returns_normal_result_witness :
    specVar ((compareMerged [⟨"A", 2000, 3, 0, 0, 0⟩, ⟨"A", 2001, 7, 0, 0, 0⟩]
        [⟨"A", 2000, 5⟩, ⟨"A", 2001, 5⟩] ["A"] (2000, 2001)).map
        (fun r => r.life.lifeExpectancy)) = 0 ∧
    ∃ res, compare_metrics [⟨"A", 2000, 3, 0, 0, 0⟩, ⟨"A", 2001, 7, 0, 0, 0⟩]
        [⟨"A", 2000, 5⟩, ⟨"A", 2001, 5⟩] ["A"] (2000, 2001)
        (fun r => r.life.lifeExpectancy) (fun r => r.co2.co2PerCapita)
        = some res ∧
      res.trendline.fitted = (compareMerged
          [⟨"A", 2000, 3, 0, 0, 0⟩, ⟨"A", 2001, 7, 0, 0, 0⟩]
          [⟨"A", 2000, 5⟩, ⟨"A", 2001, 5⟩] ["A"] (2000, 2001)).map
        (fun _ => mean ((compareMerged
            [⟨"A", 2000, 3, 0, 0, 0⟩, ⟨"A", 2001, 7, 0, 0, 0⟩]
            [⟨"A", 2000, 5⟩, ⟨"A", 2001, 5⟩] ["A"] (2000, 2001)).map
          (fun r => r.co2.co2PerCapita))) ∧
      res.trendline.intercept = 0 ∧
      res.trendline.slope = mean ((compareMerged
          [⟨"A", 2000, 3, 0, 0, 0⟩, ⟨"A", 2001, 7, 0, 0, 0⟩]
          [⟨"A", 2000, 5⟩, ⟨"A", 2001, 5⟩] ["A"] (2000, 2001)).map
        (fun r => r.co2.co2PerCapita)) / 5 := by
  obtain ⟨h0, res, h1, h2, h3, -⟩ := zero_variance_returns_normal_result
    [⟨"A", 2000, 3, 0, 0, 0⟩, ⟨"A", 2001, 7, 0, 0, 0⟩]
    [⟨"A", 2000, 5⟩, ⟨"A", 2001, 5⟩] ["A"] (2000, 2001)
    (fun r => r.life.lifeExpectancy) (fun r => r.co2.co2PerCapita) 5
    (by decide) (by decide)
  exact ⟨h0, res, h1, h2, (h3 (by norm_num)).1, (h3 (by norm_num)).2⟩

/-- The (i, j) cell of the rendered correlation matrix is the pairwise
correlation of the i-th and j-th selected columns. -/
lemma corrMatrix_entry (merged : List JoinedRow) (cols : List (JoinedRow → ℚ))
    (i j : ℕ) (hi : i < cols.length) (hj : j < cols.length) :
    ((corrMatrix merged cols).getD i []).getD j none
      = corrEntry merged (cols.get ⟨i, hi⟩) (cols.get ⟨j, hj⟩) := by
  have h1 : (corrMatrix merged cols).getD i []
      = cols.map (fun g => corrEntry merged (cols.get ⟨i, hi⟩) g) := by
    unfold corrMatrix
    rw [List.getD_eq_getElem _ _ (by simpa using hi), List.getElem_map]
    simp
  rw [h1, List.getD_eq_getElem _ _ (by simpa using hj), List.getElem_map]
  simp

/-- C6: the correlation entry is symmetric in its two columns (hence the
matrix equals its transpose cell by cell), the diagonal is exactly 1 for
any column with nonzero variance, and for a zero-variance column the
diagonal cell is the undefined marker (pandas' NaN), never coerced to a
number. -/
theorem correlation_symm_diag (merged : List JoinedRow) (a b : JoinedRow → ℚ) :
    corrEntry merged a b = corrEntry merged b a ∧
    (centeredSum2 (merged.map a) ≠ 0 → corrEntry merged a a = some 1) ∧
    (centeredSum2 (merged.map a) = 0 → corrEntry merged a a = none) ∧
    (∀ (cols : List (JoinedRow → ℚ)) (i j : ℕ),
      i < cols.length → j < cols.length →
      ((corrMatrix merged cols).getD i []).getD j none
        = ((corrMatrix merged cols).getD j []).getD i none) := by
  have hsym : ∀ f g : JoinedRow → ℚ,
      corrEntry merged f g = corrEntry merged g f := by
    intro f g
    unfold corrEntry pearson
    rw [centeredSumProd_comm (merged.map f) (merged.map g),
      mul_comm ((centeredSum2 (merged.map f) : ℚ) : ℝ)
        ((centeredSum2 (merged.map g) : ℚ) : ℝ)]
    exact if_congr or_comm rfl rfl
  refine ⟨hsym a b, ?_, ?_, ?_⟩
  · intro h
    unfold corrEntry pearson
    rw [if_neg (by simpa using h)]
    have h0 : (0 : ℝ) ≤ ((centeredSum2 (merged.map a) : ℚ) : ℝ) := by
      exact_mod_cast centeredSum2_nonneg (merged.map a)
    have hne : ((centeredSum2 (merged.map a) : ℚ) : ℝ) ≠ 0 := by
      exact_mod_cast h
    rw [centeredSumProd_self, Real.sqrt_mul_self h0, div_self hne]
  · intro h
    unfold corrEntry pearson
    rw [if_pos (Or.inl h)]
  · intro cols i j hi hj
    rw [corrMatrix_entry merged cols i j hi hj,
      corrMatrix_entry merged cols j i hj hi]
    exact hsym _ _

/-- C6 witness: on a concrete two-row joined table the CO2-per-capita
column (values 0 and 2) has diagonal correlation 1, the constant gdp
column has an undefined diagonal cell, and the (0,1) and (1,0) cells of
the rendered matrix agree. -/
theorem correlation_symm_diag_witness :
    corrEntry [⟨⟨"A", 2000, 0, 1, 0, 0⟩, ⟨"A", 2000, 70⟩⟩,
        ⟨⟨"A", 2001, 2, 1, 0, 0⟩, ⟨"A", 2001, 71⟩⟩]
      (fun r => r.co2.co2PerCapita) (fun r => r.co2.co2PerCapita) = some 1 ∧
    corrEntry [⟨⟨"A", 2000, 0, 1, 0, 0⟩, ⟨"A", 2000, 70⟩⟩,
        ⟨⟨"A", 2001, 2, 1, 0, 0⟩, ⟨"A", 2001, 71⟩⟩]
      (fun r => r.co2.gdp) (fun r => r.co2.gdp) = none ∧
    ((corrMatrix [⟨⟨"A", 2000, 0, 1, 0, 0⟩, ⟨"A", 2000, 70⟩⟩,
        ⟨⟨"A", 2001, 2, 1, 0, 0⟩, ⟨"A", 2001, 71⟩⟩] corrCols).getD 0 []).getD 1 none
      = ((corrMatrix [⟨⟨"A", 2000, 0, 1, 0, 0⟩, ⟨"A", 2000, 70⟩⟩,
        ⟨⟨"A", 2001, 2, 1, 0, 0⟩, ⟨"A", 2001, 71⟩⟩] corrCols).getD 1 []).getD 0 none :=
  ⟨(correlation_symm_diag [⟨⟨"A", 2000, 0, 1, 0, 0⟩, ⟨"A", 2000, 70⟩⟩,
      ⟨⟨"A", 2001, 2, 1, 0, 0⟩, ⟨"A", 2001, 71⟩⟩]
      (fun r => r.co2.co2PerCapita) (fun r => r.co2.co2PerCapita)).2.1
      (by norm_num [centeredSum2, mean]),
   (correlation_symm_diag [⟨⟨"A", 2000, 0, 1, 0, 0⟩, ⟨"A", 2000, 70⟩⟩,
      ⟨⟨"A", 2001, 2, 1, 0, 0⟩, ⟨"A", 2001, 71⟩⟩]
      (fun r => r.co2.gdp) (fun r => r.co2.gdp)).2.2.1
      (by norm_num [centeredSum2, mean]),
   (correlation_symm_diag [⟨⟨"A", 2000, 0, 1, 0, 0⟩, ⟨"A", 2000, 70⟩⟩,
      ⟨⟨"A", 2001, 2, 1, 0, 0⟩, ⟨"A", 2001, 71⟩⟩]
      (fun r => r.co2.co2PerCapita) (fun r => r.co2.gdp)).2.2.2
      corrCols 0 1 (by decide) (by decide)⟩

/-- C8 counterexample: a CO2 row with raw year 2000.5, whose truncation
to an integer (2000) lies inside the selected range 2000-2000 and whose
entity is selected, is nevertheless dropped by the code's CO2 filter:
the CO2 year is compared uncoerced, so the claim that both tables'
years are coerced to integers before the comparison is false. -/
theorem year_coercion_cex :
    pageFilterCO2Raw [⟨"A", Rat.mk' 4001 2, 1, 1, 1, 1⟩] ["A"] (2000, 2000)
      = [] ∧
    pyInt (Rat.mk' 4001 2) = 2000 ∧
    (2000 : ℤ) ≤ pyInt (Rat.mk' 4001 2) ∧ pyInt (Rat.mk' 4001 2) ≤ 2000 ∧
    ("A" : String) ∈ ["A"] := by
  decide

/-- C8 amended: only the life-expectancy table's Year column is coerced
to integers (line 13, truncation toward zero) before the range
comparison; the CO2 table's year is compared at its raw value against
the bounds, with no coercion anywhere. -/
theorem year_coercion_amended (lifedf : List LifeRawRow) (co2df : List CO2RawRow)
    (sel : List String) (yr : ℤ × ℤ) (rl : LifeRow) (rc : CO2RawRow) :
    (rl ∈ pageFilterLifeRaw lifedf sel yr ↔
      ((∃ r ∈ lifedf, (⟨r.entity, pyInt r.year, r.lifeExpectancy⟩ : LifeRow) = rl) ∧
        rl.entity ∈ sel ∧ yr.1 ≤ rl.year ∧ rl.year ≤ yr.2)) ∧
    (rc ∈ pageFilterCO2Raw co2df sel yr ↔
      (rc ∈ co2df ∧ rc.country ∈ sel ∧ (yr.1 : ℚ) ≤ rc.year ∧
        rc.year ≤ (yr.2 : ℚ))) := by
  constructor
  · rw [pageFilterLifeRaw, mem_filterLife]
    simp [coerceLifeYears]
  · simp [pageFilterCO2Raw, List.mem_filter]

/-- C9: every row of the joined table built under the active criteria —
in both the `page` copy and the `compare_metrics` copy handed to the
regression and correlation stages — has a selected entity and a year
inside the inclusive range, on both sides of the merge. -/
theorem joined_rows_within_criteria (co2df : List CO2Row) (lifedf : List LifeRow)
    (sel : List String) (yr : ℤ × ℤ) :
    (∀ j ∈ pageMerged co2df lifedf sel yr,
      j.co2.country ∈ sel ∧ yr.1 ≤ j.co2.year ∧ j.co2.year ≤ yr.2 ∧
      j.life.entity ∈ sel ∧ yr.1 ≤ j.life.year ∧ j.life.year ≤ yr.2) ∧
    (∀ j ∈ compareMerged co2df lifedf sel yr,
      j.co2.country ∈ sel ∧ yr.1 ≤ j.co2.year ∧ j.co2.year ≤ yr.2 ∧
      j.life.entity ∈ sel ∧ yr.1 ≤ j.life.year ∧ j.life.year ≤ yr.2) := by
  have key : ∀ j ∈ innerMerge (filterCO2 co2df sel yr) (filterLife lifedf sel yr),
      j.co2.country ∈ sel ∧ yr.1 ≤ j.co2.year ∧ j.co2.year ≤ yr.2 ∧
      j.life.entity ∈ sel ∧ yr.1 ≤ j.life.year ∧ j.life.year ≤ yr.2 := by
    intro j hj
    rcases mem_innerMerge.mp hj with ⟨hc, hl, -, -⟩
    rcases mem_filterCO2.mp hc with ⟨-, h1, h2, h3⟩
    rcases mem_filterLife.mp hl with ⟨-, h4, h5, h6⟩
    exact ⟨h1, h2, h3, h4, h5, h6⟩
  exact ⟨key, key⟩

/-- C9 witness: a concrete joined row produced by the pipeline for
criteria ({"A"}, 2000-2000) satisfies the invariant's first conjuncts. -/
theorem joined_rows_within_criteria_witness :
    (⟨⟨"A", 2000, 1, 2, 3, 4⟩, ⟨"A", 2000, 70⟩⟩ : JoinedRow).co2.country ∈ ["A"] ∧
    (2000 : ℤ) ≤ (⟨⟨"A", 2000, 1, 2, 3, 4⟩, ⟨"A", 2000, 70⟩⟩ : JoinedRow).co2.year :=
  ⟨((joined_rows_within_criteria [⟨"A", 2000, 1, 2, 3, 4⟩] [⟨"A", 2000, 70⟩]
      ["A"] (2000, 2000)).1 ⟨⟨"A", 2000, 1, 2, 3, 4⟩, ⟨"A", 2000, 70⟩⟩
      (by decide)).1,
   ((joined_rows_within_criteria [⟨"A", 2000, 1, 2, 3, 4⟩] [⟨"A", 2000, 70⟩]
      ["A"] (2000, 2000)).1 ⟨⟨"A", 2000, 1, 2, 3, 4⟩, ⟨"A", 2000, 70⟩⟩
      (by decide)).2.1⟩
